import Mathlib

/-!
Shallow embedding of the claim-dispatch-retry core of the
auto-messenger-service repository.

Sources embedded:
- internal/domain: MessageStatus, Message, WebhookResponse
- internal/repository/message/repository.go: FetchAndLockMessages, UpdateStatus
- internal/service/msgsender.go: Start, Stop, processBatch, sendMessage, saveResponse

The external retry library (github.com/aniladanir/retry) is not part of
the sources; its attempt loop is modelled from the spec where noted.
-/

namespace AutoMessenger

/-- Embeds domain.MessageStatus (internal/domain): the integer constants
StatusPending, StatusProcessing, StatusSuccess, StatusFailed (iota 0-3),
represented as an inductive type with the constructors in the same order. -/
inductive MessageStatus
  | pending
  | processing
  | success
  | failed
deriving DecidableEq

/-- Embeds domain.Message (internal/domain): ID (int primary key), Content
(string), PhoneNumber (string), Status (int, holding a MessageStatus
value), CreatedAt (time.Time), UpdatedAt (*time.Time, nil until the first
update). The Status column is represented by the status enumeration it
stores, and timestamps are abstracted as naturals. -/
structure Message where
  id : Nat
  content : String
  phoneNumber : String
  status : MessageStatus
  createdAt : Nat
  updatedAt : Option Nat
deriving DecidableEq

/-- Embeds domain.WebhookResponse (internal/domain): the decoded response
body with MessageID and Message string fields. -/
structure WebhookResponse where
  messageId : String
  message : String
deriving DecidableEq

/-- Status of the row with the given identifier in a store state
(first matching row, as a primary-key lookup). -/
def statusOf (store : List Message) (i : Nat) : Option MessageStatus :=
  (store.find? fun m => m.id == i).map Message.status

/-- Embeds FetchAndLockMessages (repository.go, lines 32-54): inside one
transaction, select up to `limit` rows with status `Pending`, skipping rows
locked by a concurrent in-flight transaction (`FOR UPDATE SKIP LOCKED`),
then set the status of exactly the selected ids to `Processing`.
Returns the selected in-memory rows (exactly as read, the Go slice is not
touched by the update) together with the committed store state. -/
def FetchAndLockMessages (store : List Message) (locked : List Nat) (limit : Nat) :
    List Message × List Message :=
  let selected := (store.filter fun m =>
    decide (m.status = MessageStatus.pending ∧ m.id ∉ locked)).take limit
  let ids := selected.map Message.id
  (selected, store.map fun m =>
    if m.id ∈ ids then { m with status := MessageStatus.processing } else m)

/-- Embeds UpdateStatus (repository.go, lines 57-62): set the in-memory
row's status and last-update timestamp, then save the whole row. -/
def UpdateStatus (msg : Message) (status : MessageStatus) (now : Nat) : Message :=
  { msg with status := status, updatedAt := some now }

/-- Saving a row (gorm `db.Save`): replace the row with the same primary
key by the given in-memory row. -/
def saveMessage (store : List Message) (msg : Message) : List Message :=
  store.map fun m => if m.id = msg.id then msg else m

/-- Observable lifecycle state of the sender service (msgsender.go):
the `isRunning` flag, the number of scheduler loops currently running,
and how many stop signals were ever sent on `stopChan`. -/
structure SchedulerState where
  isRunning : Bool
  activeLoops : Nat
  stopSignals : Nat
deriving DecidableEq

/-- State of a freshly constructed service (NewMessageSenderService). -/
def initialScheduler : SchedulerState :=
  { isRunning := false, activeLoops := 0, stopSignals := 0 }

/-- Embeds service.Start (msgsender.go, lines 67-95): under the mutex, if
`isRunning` is set do nothing, otherwise spawn a new scheduler loop.
The Go code never sets `isRunning` to true here. -/
def Start (s : SchedulerState) : SchedulerState :=
  if s.isRunning then s
  else { s with activeLoops := s.activeLoops + 1 }

/-- Embeds service.Stop (msgsender.go, lines 98-108): under the mutex, if
`isRunning` is not set do nothing, otherwise send one stop signal (which
makes one loop exit) and clear `isRunning`. -/
def Stop (s : SchedulerState) : SchedulerState :=
  if !s.isRunning then s
  else { isRunning := false, activeLoops := s.activeLoops - 1,
         stopSignals := s.stopSignals + 1 }

/-- Result of one delivery attempt as seen by `sendMessage`: either a
transport-level failure (no response obtained) or an HTTP response with a
status code and the decoded body (`none` when the body does not decode). -/
inductive AttemptResult
  | transportError
  | httpResponse (code : Nat) (body : Option WebhookResponse)
deriving DecidableEq

/-- Observable effects of one run of `sendMessage` for a single message:
the status updates issued to the store in order, the idempotency cache
writes issued in order, the number of error log lines, and the number of
attempts consumed. -/
structure SendTrace where
  statusUpdates : List MessageStatus
  cacheCalls : List String
  loggedErrors : Nat
  attemptsUsed : Nat
deriving DecidableEq

/-- Embeds the body of the retry closure in sendMessage (msgsender.go,
lines 139-177) together with saveResponse (lines 206-216): classify one
attempt's result into (terminate?, status updates issued, cache writes
issued, error log lines). `cacheOk` tells whether the cache write (if any)
succeeds; a failed write is logged only. -/
def classifyAttempt (cacheOk : Bool) (r : AttemptResult) :
    Bool × List MessageStatus × List String × Nat :=
  match r with
  | .transportError => (false, [], [], 1)
  | .httpResponse code body =>
    if code = 202 then
      match body with
      | none => (true, [MessageStatus.success], [], 1)
      | some resp =>
        if resp.messageId = "" then (true, [MessageStatus.success], [], 0)
        else (true, [MessageStatus.success], [resp.messageId],
              if cacheOk then 0 else 1)
    else if 500 ≤ code then (false, [], [], 1)
    else if 400 ≤ code then (true, [MessageStatus.failed], [], 1)
    else (true, [], [], 0)

/-- Accumulate one non-terminating attempt in front of the trace of the
remaining attempts. -/
def consTrace (ups : List MessageStatus) (calls : List String) (errs : Nat)
    (t : SendTrace) : SendTrace :=
  { statusUpdates := ups ++ t.statusUpdates,
    cacheCalls := calls ++ t.cacheCalls,
    loggedErrors := errs + t.loggedErrors,
    attemptsUsed := t.attemptsUsed + 1 }

/-- Modelled from the spec: the attempt loop of the external retry library
(spec §4.3, step 3): run the attempt closure until it terminates or the
configured maximum attempt count is exhausted; report whether it
terminated within the budget. An attempt beyond the simulated result list
obtains no response (a transport failure). -/
def retryLoop (cacheOk : Bool) : Nat → List AttemptResult → SendTrace × Bool
  | 0, _ => ({ statusUpdates := [], cacheCalls := [], loggedErrors := 0,
               attemptsUsed := 0 }, false)
  | fuel + 1, results =>
    let r := results.headD AttemptResult.transportError
    let (term, ups, calls, errs) := classifyAttempt cacheOk r
    if term then
      ({ statusUpdates := ups, cacheCalls := calls, loggedErrors := errs,
         attemptsUsed := 1 }, true)
    else
      let (t, ok) := retryLoop cacheOk fuel results.tail
      (consTrace ups calls errs t, ok)

/-- Embeds sendMessage (msgsender.go, lines 135-188): run the retry loop
with the configured budget; when the loop reports failure, issue one
fallback status update to `Failed`. -/
def sendMessage (maxAttempts : Nat) (cacheOk : Bool)
    (results : List AttemptResult) : SendTrace :=
  let (t, ok) := retryLoop cacheOk maxAttempts results
  if ok then t
  else { t with statusUpdates := t.statusUpdates ++ [MessageStatus.failed] }

/-- Retryable attempt results: transport failures and server errors
(msgsender.go lines 143-146 and 160-165). -/
def isRetryable : AttemptResult → Bool
  | .transportError => true
  | .httpResponse code _ => decide (500 ≤ code)

/-- Attempt results whose classification is covered by the code's
if/else-if chain: transport failures, the success code 202, and every
code at or above 400. Codes below 400 other than 202 fall through the
chain with no status update. -/
def isClassified : AttemptResult → Bool
  | .transportError => true
  | .httpResponse code _ => decide (code = 202) || decide (400 ≤ code)

/-- Parameters of one scheduler cycle: the ids locked by concurrent
transactions during the claim, the batch size, the simulated attempt
results per message id, the retry budget, whether cache writes succeed,
and the wall-clock instant used for update timestamps. -/
structure CycleInput where
  locked : List Nat
  limit : Nat
  responses : Nat → List AttemptResult
  maxAttempts : Nat
  cacheOk : Bool
  now : Nat

/-- Apply the status updates a dispatch issued for one message id to the
store in order (each one a saved UpdateStatus row write). -/
def applyUpdates (store : List Message) (i : Nat) (now : Nat) :
    List MessageStatus → List Message
  | [] => store
  | st :: rest =>
    applyUpdates
      (store.map fun m => if m.id = i then UpdateStatus m st now else m)
      i now rest

/-- Embeds the fan-out of processBatch (msgsender.go, lines 126-132): one
sendMessage per claimed row; distinct rows are updated independently, so
the concurrent fan-out is linearized row by row. -/
def dispatchBatch (input : CycleInput) (store : List Message)
    (batch : List Message) : List Message :=
  batch.foldl
    (fun st m =>
      applyUpdates st m.id input.now
        (sendMessage input.maxAttempts input.cacheOk
          (input.responses m.id)).statusUpdates)
    store

/-- Embeds processBatch (msgsender.go, lines 115-133): claim a batch, then
dispatch it; an empty batch dispatches nothing. -/
def processBatch (input : CycleInput) (store : List Message) : List Message :=
  let claimed := FetchAndLockMessages store input.locked input.limit
  dispatchBatch input claimed.2 claimed.1

/-- A sequence of scheduler cycles, each with its own parameters. -/
def runCycles (inputs : List CycleInput) (store : List Message) : List Message :=
  inputs.foldl (fun st i => processBatch i st) store

/-- Legal single status transitions of the spec's state machine (§4.3). -/
def legalStep : MessageStatus → MessageStatus → Bool
  | .pending, .processing => true
  | .processing, .success => true
  | .processing, .failed => true
  | _, _ => false

/-- Reflexive-transitive closure of the legal transition table. -/
inductive StatusPath : MessageStatus → MessageStatus → Prop
  | refl (a : MessageStatus) : StatusPath a a
  | step {a b c : MessageStatus} :
      legalStep a b = true → StatusPath b c → StatusPath a c

/-- A concrete pending message used for concrete evaluations. -/
def sampleMsg1 : Message :=
  { id := 1, content := "Hello World 1", phoneNumber := "+905549998877",
    status := MessageStatus.pending, createdAt := 0, updatedAt := none }

/-- A second concrete pending message. -/
def sampleMsg2 : Message :=
  { id := 2, content := "Hello World 2", phoneNumber := "+905549998876",
    status := MessageStatus.pending, createdAt := 0, updatedAt := none }

/-- A concrete message already delivered. -/
def sampleMsg3 : Message :=
  { id := 3, content := "Hello World 3", phoneNumber := "+905549998875",
    status := MessageStatus.success, createdAt := 0, updatedAt := none }

/-- C10: UpdateStatus sets exactly the status field and the last-update
timestamp and leaves the identifier, content, destination number and
creation timestamp of the saved row unchanged. -/
theorem update_status_frame (msg : Message) (st : MessageStatus) (now : Nat) :
    (UpdateStatus msg st now).status = st
    ∧ (UpdateStatus msg st now).updatedAt = some now
    ∧ (UpdateStatus msg st now).id = msg.id
    ∧ (UpdateStatus msg st now).content = msg.content
    ∧ (UpdateStatus msg st now).phoneNumber = msg.phoneNumber
    ∧ (UpdateStatus msg st now).createdAt = msg.createdAt :=
  ⟨rfl, rfl, rfl, rfl, rfl, rfl⟩

/-- C3: evaluating service.Start at the failing input: on a fresh service,
two consecutive Start calls spawn two scheduler loops instead of one,
because Start never sets the `isRunning` flag, so the second call's guard
does not fire. The claim (Start is idempotent) fails on the code. -/
theorem start_twice_spawns_second_loop :
    (Start (Start initialScheduler)).activeLoops = 2
    ∧ (Start initialScheduler).activeLoops = 1
    ∧ Start (Start initialScheduler) ≠ Start initialScheduler := by
  decide

/-- C4: evaluating service.Stop at the failing input: after Start, the
`isRunning` flag is still false, so Stop returns without sending a stop
signal and the scheduler loop keeps running; the claim (Stop signals the
loop to exit and stops further cycles) fails on the code. -/
theorem stop_while_running_is_noop :
    Stop (Start initialScheduler) = Start initialScheduler
    ∧ (Stop (Start initialScheduler)).stopSignals = 0
    ∧ (Stop (Start initialScheduler)).activeLoops = 1 := by
  decide

/-- C7 counterexample: the batch returned by FetchAndLockMessages carries
the `Pending` status it was read with, not `Processing`: the update inside
the transaction changes the store rows but not the returned Go slice. -/
theorem claimed_batch_returned_rows_still_pending :
    (FetchAndLockMessages [sampleMsg1] [] 1).1.map Message.status
      = [MessageStatus.pending]
    ∧ (FetchAndLockMessages [sampleMsg1] [] 1).1.map Message.status
      ≠ [MessageStatus.processing] := by
  decide

/-- C6 counterexample: a response with status 200 (not the success code
202, not an error code) terminates the retry loop with no status update at
all, so zero terminal updates are issued for that message, not exactly
one. -/
theorem unclassified_response_yields_no_terminal_update :
    (sendMessage 3 true [AttemptResult.httpResponse 200 none]).statusUpdates.length = 0
    ∧ (sendMessage 3 true [AttemptResult.httpResponse 200 none]).statusUpdates.length ≠ 1 := by
  decide

lemma classifyAttempt_retryable (cacheOk : Bool) (r : AttemptResult)
    (h : isRetryable r = true) :
    classifyAttempt cacheOk r = (false, [], [], 1) := by
  cases r with
  | transportError => rfl
  | httpResponse code body =>
    have h5 : 500 ≤ code := by simpa [isRetryable] using h
    have h202 : ¬ code = 202 := by omega
    simp [classifyAttempt, h202, h5]

lemma retryLoop_all_retryable (cacheOk : Bool) (fuel : Nat)
    (results : List AttemptResult)
    (hall : ∀ r ∈ results, isRetryable r = true) :
    retryLoop cacheOk fuel results =
      ({ statusUpdates := [], cacheCalls := [], loggedErrors := fuel,
         attemptsUsed := fuel }, false) := by
  induction fuel generalizing results with
  | zero => rfl
  | succ n ih =>
    have hhead : isRetryable (results.headD AttemptResult.transportError) = true := by
      cases results with
      | nil => rfl
      | cons a l => exact hall a (by simp)
    have htail : ∀ r ∈ results.tail, isRetryable r = true := fun r hr =>
      hall r (List.mem_of_mem_tail hr)
    have hc := classifyAttempt_retryable cacheOk _ hhead
    simp only [retryLoop]
    rw [hc]
    simp [ih _ htail, consTrace, Nat.add_comm]

/-- C9: when every attempt yields a transport failure or a server error,
the retry loop exhausts the whole configured budget, the message receives
the single fallback update to `Failed`, and no idempotency record write is
issued. -/
theorem retry_exhaustion_marks_failed (maxAttempts : Nat) (cacheOk : Bool)
    (results : List AttemptResult)
    (hall : ∀ r ∈ results, isRetryable r = true) :
    (sendMessage maxAttempts cacheOk results).statusUpdates = [MessageStatus.failed]
    ∧ (sendMessage maxAttempts cacheOk results).cacheCalls = []
    ∧ (sendMessage maxAttempts cacheOk results).attemptsUsed = maxAttempts := by
  simp [sendMessage, retryLoop_all_retryable cacheOk maxAttempts results hall]

/-- Witness for the retry-exhaustion theorem at three 500 responses and a
budget of three attempts. -/
theorem retry_exhaustion_marks_failed_witness :
    (∀ r ∈ [AttemptResult.httpResponse 500 none, AttemptResult.transportError,
            AttemptResult.httpResponse 503 none], isRetryable r = true)
    ∧ ((sendMessage 3 true [AttemptResult.httpResponse 500 none,
          AttemptResult.transportError,
          AttemptResult.httpResponse 503 none]).statusUpdates = [MessageStatus.failed]
        ∧ (sendMessage 3 true [AttemptResult.httpResponse 500 none,
            AttemptResult.transportError,
            AttemptResult.httpResponse 503 none]).cacheCalls = []
        ∧ (sendMessage 3 true [AttemptResult.httpResponse 500 none,
            AttemptResult.transportError,
            AttemptResult.httpResponse 503 none]).attemptsUsed = 3) :=
  ⟨by decide, retry_exhaustion_marks_failed 3 true _ (by decide)⟩

/-- C8: a client-error response (400 ≤ code < 500) on the first attempt
updates the message to `Failed` immediately and terminates the loop after
exactly that one attempt, with no cache write. -/
theorem client_error_fails_after_one_attempt (code : Nat)
    (body : Option WebhookResponse) (rest : List AttemptResult)
    (maxAttempts : Nat) (cacheOk : Bool)
    (h4 : 400 ≤ code) (h5 : code < 500) (hmax : 1 ≤ maxAttempts) :
    (sendMessage maxAttempts cacheOk (AttemptResult.httpResponse code body :: rest)).statusUpdates
      = [MessageStatus.failed]
    ∧ (sendMessage maxAttempts cacheOk (AttemptResult.httpResponse code body :: rest)).attemptsUsed = 1
    ∧ (sendMessage maxAttempts cacheOk (AttemptResult.httpResponse code body :: rest)).cacheCalls
      = [] := by
  obtain ⟨n, rfl⟩ : ∃ n, maxAttempts = n + 1 := ⟨maxAttempts - 1, by omega⟩
  have h202 : ¬ code = 202 := by omega
  have h500 : ¬ 500 ≤ code := by omega
  simp [sendMessage, retryLoop, classifyAttempt, h202, h500, h4]

/-- Witness for the client-error theorem at a single 400 response and a
budget of three attempts. -/
theorem client_error_fails_after_one_attempt_witness :
    (400 ≤ 400 ∧ 400 < 500 ∧ 1 ≤ 3)
    ∧ ((sendMessage 3 true [AttemptResult.httpResponse 400 none]).statusUpdates
        = [MessageStatus.failed]
      ∧ (sendMessage 3 true [AttemptResult.httpResponse 400 none]).attemptsUsed = 1
      ∧ (sendMessage 3 true [AttemptResult.httpResponse 400 none]).cacheCalls = []) :=
  ⟨⟨by decide, by decide, by decide⟩,
    client_error_fails_after_one_attempt 400 none [] 3 true (by decide) (by decide) (by decide)⟩

lemma retryLoop_retryable_prefix (cacheOk : Bool) (pre rest : List AttemptResult)
    (fuel : Nat) (hpre : ∀ r ∈ pre, isRetryable r = true)
    (hlen : pre.length ≤ fuel) :
    (retryLoop cacheOk fuel (pre ++ rest)).2
      = (retryLoop cacheOk (fuel - pre.length) rest).2
    ∧ (retryLoop cacheOk fuel (pre ++ rest)).1.statusUpdates
      = (retryLoop cacheOk (fuel - pre.length) rest).1.statusUpdates
    ∧ (retryLoop cacheOk fuel (pre ++ rest)).1.cacheCalls
      = (retryLoop cacheOk (fuel - pre.length) rest).1.cacheCalls := by
  induction pre generalizing fuel with
  | nil => simp
  | cons a l ih =>
    cases fuel with
    | zero => simp at hlen
    | succ n =>
      have ha : isRetryable a = true := hpre a (by simp)
      have hl : ∀ r ∈ l, isRetryable r = true := fun r hr => hpre r (by simp [hr])
      have hlen' : l.length ≤ n := by simpa using hlen
      have hc := classifyAttempt_retryable cacheOk a ha
      have hstep := ih n hl hlen'
      have hfuel : n + 1 - (a :: l).length = n - l.length := by simp
      constructor
      · rw [hfuel]
        rw [← hstep.1]
        simp only [retryLoop, List.cons_append, List.headD_cons, List.tail_cons]
        rw [hc]
        simp
      constructor
      · rw [hfuel, ← hstep.2.1]
        simp only [retryLoop, List.cons_append, List.headD_cons, List.tail_cons]
        rw [hc]
        simp [consTrace]
      · rw [hfuel, ← hstep.2.2]
        simp only [retryLoop, List.cons_append, List.headD_cons, List.tail_cons]
        rw [hc]
        simp [consTrace]

/-- Cache writes issued by saveResponse for a decoded response body: one
write keyed by the external message identifier exactly when the body
decodes and carries a non-empty identifier. -/
def cacheCallsOf : Option WebhookResponse → List String
  | none => []
  | some resp => if resp.messageId = "" then [] else [resp.messageId]

lemma retryLoop_on_202 (cacheOk : Bool) (k : Nat) (body : Option WebhookResponse) :
    (retryLoop cacheOk (k + 1) [AttemptResult.httpResponse 202 body]).2 = true
    ∧ (retryLoop cacheOk (k + 1) [AttemptResult.httpResponse 202 body]).1.statusUpdates
      = [MessageStatus.success]
    ∧ (retryLoop cacheOk (k + 1) [AttemptResult.httpResponse 202 body]).1.cacheCalls
      = cacheCallsOf body := by
  cases body with
  | none => simp [retryLoop, classifyAttempt, cacheCallsOf]
  | some resp =>
    by_cases h : resp.messageId = "" <;>
      simp [retryLoop, classifyAttempt, cacheCallsOf, h]

/-- C5: when a delivery attempt receives status 202 (after any run of
retryable attempts within the budget), the message's status is updated to
`Success` and nothing else, and an idempotency record write is issued if
and only if the decoded response body carries a non-empty external message
identifier — independently of whether the cache write itself succeeds, so
a failed record write never reverts the `Success` update. -/
theorem success_updates_status_and_records (pre : List AttemptResult)
    (body : Option WebhookResponse) (maxAttempts : Nat) (cacheOk : Bool)
    (hpre : ∀ r ∈ pre, isRetryable r = true) (hlen : pre.length < maxAttempts) :
    (sendMessage maxAttempts cacheOk
        (pre ++ [AttemptResult.httpResponse 202 body])).statusUpdates
      = [MessageStatus.success]
    ∧ ((sendMessage maxAttempts cacheOk
          (pre ++ [AttemptResult.httpResponse 202 body])).cacheCalls ≠ []
        ↔ ∃ resp, body = some resp ∧ resp.messageId ≠ "")
    ∧ (sendMessage maxAttempts cacheOk
        (pre ++ [AttemptResult.httpResponse 202 body])).cacheCalls
      = cacheCallsOf body := by
  have hle : pre.length ≤ maxAttempts := Nat.le_of_lt hlen
  have hpref := retryLoop_retryable_prefix cacheOk pre
    [AttemptResult.httpResponse 202 body] maxAttempts hpre hle
  obtain ⟨k, hk⟩ : ∃ k, maxAttempts - pre.length = k + 1 :=
    ⟨maxAttempts - pre.length - 1, by omega⟩
  rw [hk] at hpref
  have h202 := retryLoop_on_202 cacheOk k body
  have hok : (retryLoop cacheOk maxAttempts
      (pre ++ [AttemptResult.httpResponse 202 body])).2 = true := by
    rw [hpref.1, h202.1]
  have hups : (retryLoop cacheOk maxAttempts
      (pre ++ [AttemptResult.httpResponse 202 body])).1.statusUpdates
      = [MessageStatus.success] := by
    rw [hpref.2.1, h202.2.1]
  have hcalls : (retryLoop cacheOk maxAttempts
      (pre ++ [AttemptResult.httpResponse 202 body])).1.cacheCalls
      = cacheCallsOf body := by
    rw [hpref.2.2, h202.2.2]
  refine ⟨?_, ?_, ?_⟩
  · simp [sendMessage, hok, hups]
  · simp only [sendMessage, hok, if_pos]
    rw [hcalls]
    cases body with
    | none => simp [cacheCallsOf]
    | some resp =>
      by_cases h : resp.messageId = "" <;> simp [cacheCallsOf, h]
  · simp [sendMessage, hok, hcalls]

/-- Witness for the success theorem on the spec's test sequence
[500, 500, 202] with budget 3 and a body carrying an external id. -/
theorem success_updates_status_and_records_witness :
    (∀ r ∈ [AttemptResult.httpResponse 500 none, AttemptResult.httpResponse 500 none],
        isRetryable r = true)
    ∧ ([AttemptResult.httpResponse 500 none, AttemptResult.httpResponse 500 none].length < 3)
    ∧ ((sendMessage 3 true
          ([AttemptResult.httpResponse 500 none, AttemptResult.httpResponse 500 none]
            ++ [AttemptResult.httpResponse 202
                  (some { messageId := "ext-1", message := "accepted" })])).statusUpdates
        = [MessageStatus.success]
      ∧ ((sendMessage 3 true
            ([AttemptResult.httpResponse 500 none, AttemptResult.httpResponse 500 none]
              ++ [AttemptResult.httpResponse 202
                    (some { messageId := "ext-1", message := "accepted" })])).cacheCalls ≠ []
          ↔ ∃ resp, (some { messageId := "ext-1", message := "accepted" } : Option WebhookResponse)
              = some resp ∧ resp.messageId ≠ "")
      ∧ (sendMessage 3 true
          ([AttemptResult.httpResponse 500 none, AttemptResult.httpResponse 500 none]
            ++ [AttemptResult.httpResponse 202
                  (some { messageId := "ext-1", message := "accepted" })])).cacheCalls
        = cacheCallsOf (some { messageId := "ext-1", message := "accepted" })) :=
  ⟨by decide, by decide,
    success_updates_status_and_records
      [AttemptResult.httpResponse 500 none, AttemptResult.httpResponse 500 none]
      (some { messageId := "ext-1", message := "accepted" }) 3 true
      (by decide) (by decide)⟩

lemma classifyAttempt_nonterm_updates (cacheOk : Bool) (r : AttemptResult)
    (h : (classifyAttempt cacheOk r).1 = false) :
    (classifyAttempt cacheOk r).2.1 = [] := by
  cases r with
  | transportError => rfl
  | httpResponse code body =>
    by_cases h1 : code = 202
    · cases body with
      | none => simp [classifyAttempt, h1] at h
      | some resp =>
        by_cases h2 : resp.messageId = "" <;> simp [classifyAttempt, h1, h2] at h
    · by_cases h3 : 500 ≤ code
      · simp [classifyAttempt, h1, h3]
      · by_cases h4 : 400 ≤ code <;> simp [classifyAttempt, h1, h3, h4] at h

lemma classifyAttempt_term_updates_le_one (cacheOk : Bool) (r : AttemptResult) :
    (classifyAttempt cacheOk r).2.1.length ≤ 1 := by
  cases r with
  | transportError => simp [classifyAttempt]
  | httpResponse code body =>
    by_cases h1 : code = 202
    · cases body with
      | none => simp [classifyAttempt, h1]
      | some resp =>
        by_cases h2 : resp.messageId = "" <;> simp [classifyAttempt, h1, h2]
    · by_cases h3 : 500 ≤ code
      · simp [classifyAttempt, h1, h3]
      · by_cases h4 : 400 ≤ code <;> simp [classifyAttempt, h1, h3, h4]

lemma classifyAttempt_classified_term (cacheOk : Bool) (r : AttemptResult)
    (hcl : isClassified r = true) (ht : (classifyAttempt cacheOk r).1 = true) :
    (classifyAttempt cacheOk r).2.1.length = 1 := by
  cases r with
  | transportError => simp [classifyAttempt] at ht
  | httpResponse code body =>
    by_cases h1 : code = 202
    · cases body with
      | none => simp [classifyAttempt, h1]
      | some resp =>
        by_cases h2 : resp.messageId = "" <;> simp [classifyAttempt, h1, h2]
    · have h4 : 400 ≤ code := by
        rcases (by simpa [isClassified] using hcl : code = 202 ∨ 400 ≤ code) with h | h
        · exact absurd h h1
        · exact h
      by_cases h3 : 500 ≤ code
      · simp [classifyAttempt, h1, h3] at ht
      · simp [classifyAttempt, h1, h3, h4]

lemma retryLoop_updates_length (cacheOk : Bool) (fuel : Nat)
    (results : List AttemptResult) :
    ((retryLoop cacheOk fuel results).2 = false →
      (retryLoop cacheOk fuel results).1.statusUpdates = [])
    ∧ (retryLoop cacheOk fuel results).1.statusUpdates.length ≤ 1
    ∧ ((∀ r ∈ results, isClassified r = true) →
        (retryLoop cacheOk fuel results).2 = true →
        (retryLoop cacheOk fuel results).1.statusUpdates.length = 1) := by
  induction fuel generalizing results with
  | zero => simp [retryLoop]
  | succ n ih =>
    have hhd : ∀ hcl : ∀ r ∈ results, isClassified r = true,
        isClassified (results.headD AttemptResult.transportError) = true := by
      intro hcl
      cases results with
      | nil => rfl
      | cons a l => exact hcl a (by simp)
    rcases hterm : (classifyAttempt cacheOk
        (results.headD AttemptResult.transportError)).1 with _ | _
    · have hups := classifyAttempt_nonterm_updates cacheOk
        (results.headD AttemptResult.transportError) hterm
      have htl := ih results.tail
      simp only [retryLoop, hterm, Bool.false_eq_true, if_false, hups]
      refine ⟨fun hok => ?_, ?_, fun hcl hok => ?_⟩
      · have hok' : (retryLoop cacheOk n results.tail).2 = false := by
          simpa [consTrace] using hok
        simp [consTrace, htl.1 hok']
      · simpa [consTrace] using htl.2.1
      · have hcl' : ∀ r ∈ results.tail, isClassified r = true := fun r hr =>
          hcl r (List.mem_of_mem_tail hr)
        simpa [consTrace] using htl.2.2 hcl' (by simpa [consTrace] using hok)
    · simp only [retryLoop, hterm, if_true]
      refine ⟨fun hok => by simp at hok, ?_, fun hcl _ => ?_⟩
      · simpa using classifyAttempt_term_updates_le_one cacheOk
          (results.headD AttemptResult.transportError)
      · simpa using classifyAttempt_classified_term cacheOk
          (results.headD AttemptResult.transportError) (hhd hcl) hterm

/-- C6 (amended): over one whole delivery-and-retry sequence, at most one
terminal status update is issued for the message, and exactly one is
issued provided every attempt's response falls in a range the code
classifies (transport failure, the success code 202, or any code at or
above 400); a response below 400 other than 202 terminates the loop with
no status update at all. -/
theorem dispatcher_terminal_update_count (maxAttempts : Nat) (cacheOk : Bool)
    (results : List AttemptResult) :
    (sendMessage maxAttempts cacheOk results).statusUpdates.length ≤ 1
    ∧ ((∀ r ∈ results, isClassified r = true) →
        (sendMessage maxAttempts cacheOk results).statusUpdates.length = 1) := by
  have hloop := retryLoop_updates_length cacheOk maxAttempts results
  rcases hok : (retryLoop cacheOk maxAttempts results).2 with _ | _
  · have hempty := hloop.1 hok
    constructor
    · simp [sendMessage, hok, hempty]
    · intro _
      simp [sendMessage, hok, hempty]
  · constructor
    · simp only [sendMessage, hok, if_pos]
      exact hloop.2.1
    · intro hcl
      simp only [sendMessage, hok, if_pos]
      exact hloop.2.2 hcl hok

/-- Witness for the terminal-update-count theorem: a 500, then a 202, all
classified, yields exactly one terminal update. -/
theorem dispatcher_terminal_update_count_witness :
    (∀ r ∈ [AttemptResult.httpResponse 500 none,
        AttemptResult.httpResponse 202 none], isClassified r = true)
    ∧ (sendMessage 3 true [AttemptResult.httpResponse 500 none,
        AttemptResult.httpResponse 202 none]).statusUpdates.length ≤ 1
    ∧ (sendMessage 3 true [AttemptResult.httpResponse 500 none,
        AttemptResult.httpResponse 202 none]).statusUpdates.length = 1 :=
  ⟨by decide,
    (dispatcher_terminal_update_count 3 true
      [AttemptResult.httpResponse 500 none, AttemptResult.httpResponse 202 none]).1,
    (dispatcher_terminal_update_count 3 true
      [AttemptResult.httpResponse 500 none, AttemptResult.httpResponse 202 none]).2
      (by decide)⟩

lemma claimed_batch_sublist (store : List Message) (locked : List Nat)
    (limit : Nat) :
    List.Sublist (FetchAndLockMessages store locked limit).1 store := by
  exact (List.take_sublist _ _).trans (List.filter_sublist _)

lemma claimed_batch_mem (store : List Message) (locked : List Nat) (limit : Nat)
    (m : Message) (hm : m ∈ (FetchAndLockMessages store locked limit).1) :
    m.status = MessageStatus.pending ∧ m.id ∉ locked := by
  have h1 : m ∈ store.filter fun x =>
      decide (x.status = MessageStatus.pending ∧ x.id ∉ locked) :=
    List.mem_of_mem_take hm
  simpa using List.of_mem_filter h1

/-- C1: two claim operations running concurrently against the same store
state claim disjoint sets of messages: while the first transaction holds
row locks on its selected rows, the second one's `SKIP LOCKED` select
skips exactly those rows, so the union of the two batches has no duplicate
message identifier. -/
theorem concurrent_claims_no_duplicate_ids (store : List Message)
    (locked : List Nat) (l1 l2 : Nat)
    (hnd : (store.map Message.id).Nodup) :
    (((FetchAndLockMessages store locked l1).1
        ++ (FetchAndLockMessages store
              (locked ++ (FetchAndLockMessages store locked l1).1.map Message.id)
              l2).1).map Message.id).Nodup := by
  have hs1 := claimed_batch_sublist store locked l1
  have hs2 := claimed_batch_sublist store
    (locked ++ (FetchAndLockMessages store locked l1).1.map Message.id) l2
  have hn1 : ((FetchAndLockMessages store locked l1).1.map Message.id).Nodup :=
    hnd.sublist (hs1.map Message.id)
  have hn2 : ((FetchAndLockMessages store
      (locked ++ (FetchAndLockMessages store locked l1).1.map Message.id)
      l2).1.map Message.id).Nodup :=
    hnd.sublist (hs2.map Message.id)
  rw [List.map_append]
  refine hn1.append hn2 ?_
  intro x hx1 hx2
  obtain ⟨m, hm2, rfl⟩ := List.mem_map.mp hx2
  have hnot := (claimed_batch_mem store _ l2 m hm2).2
  exact hnot (List.mem_append_right locked hx1)

/-- Witness for the disjoint-claims theorem on a concrete three-row store:
the first claim takes ids 1 and 2, the concurrent one takes id 3 only. -/
theorem concurrent_claims_no_duplicate_ids_witness :
    (([sampleMsg1, sampleMsg2, sampleMsg3].map Message.id).Nodup)
    ∧ (((FetchAndLockMessages [sampleMsg1, sampleMsg2, sampleMsg3] [] 2).1
        ++ (FetchAndLockMessages [sampleMsg1, sampleMsg2, sampleMsg3]
              ([] ++ (FetchAndLockMessages [sampleMsg1, sampleMsg2, sampleMsg3] [] 2).1.map
                  Message.id)
              2).1).map Message.id).Nodup :=
  ⟨by decide,
    concurrent_claims_no_duplicate_ids [sampleMsg1, sampleMsg2, sampleMsg3] [] 2 2
      (by decide)⟩

lemma statusOf_map_processing (store : List Message) (ids : List Nat) (i : Nat)
    (hi : i ∈ ids) (hex : ∃ m ∈ store, m.id = i) :
    statusOf
      (store.map fun m =>
        if m.id ∈ ids then { m with status := MessageStatus.processing } else m) i
      = some MessageStatus.processing := by
  induction store with
  | nil => rcases hex with ⟨m, hm, _⟩; exact absurd hm (List.not_mem_nil m)
  | cons a l ih =>
    by_cases ha : a.id = i
    · simp [statusOf, List.map_cons, List.find?_cons, hi, ha]
    · have hex' : ∃ m ∈ l, m.id = i := by
        rcases hex with ⟨m, hm, hmi⟩
        rcases List.mem_cons.mp hm with rfl | hm'
        · exact absurd hmi ha
        · exact ⟨m, hm', hmi⟩
      have step := ih hex'
      by_cases hmem : a.id ∈ ids <;>
        simpa [statusOf, List.map_cons, List.find?_cons, hmem, ha] using step

/-- C7 (amended): every message handed back by FetchAndLockMessages was
selected with status `Pending`, and inside the same transaction the store
row with its identifier is transitioned to `Processing`; the returned
in-memory rows themselves keep the `Pending` value they were read with. -/
theorem claim_marks_rows_processing_in_store (store : List Message)
    (locked : List Nat) (limit : Nat) :
    ∀ m ∈ (FetchAndLockMessages store locked limit).1,
      m.status = MessageStatus.pending
      ∧ statusOf (FetchAndLockMessages store locked limit).2 m.id
          = some MessageStatus.processing := by
  intro m hm
  refine ⟨(claimed_batch_mem store locked limit m hm).1, ?_⟩
  have hmem : m ∈ store := (claimed_batch_sublist store locked limit).mem hm
  exact statusOf_map_processing store
    ((FetchAndLockMessages store locked limit).1.map Message.id) m.id
    (List.mem_map_of_mem Message.id hm) ⟨m, hmem, rfl⟩

/-- Witness for the amended claim theorem on a one-row store. -/
theorem claim_marks_rows_processing_in_store_witness :
    sampleMsg1 ∈ (FetchAndLockMessages [sampleMsg1] [] 1).1
    ∧ (sampleMsg1.status = MessageStatus.pending
      ∧ statusOf (FetchAndLockMessages [sampleMsg1] [] 1).2 sampleMsg1.id
          = some MessageStatus.processing) :=
  ⟨by decide,
    claim_marks_rows_processing_in_store [sampleMsg1] [] 1 sampleMsg1 (by decide)⟩

lemma map_id_of_id_preserving (f : Message → Message)
    (hf : ∀ m, (f m).id = m.id) (store : List Message) :
    (store.map f).map Message.id = store.map Message.id := by
  rw [List.map_map]
  exact List.map_congr_left fun m _ => hf m

lemma applyUpdates_map_id (store : List Message) (i now : Nat)
    (ups : List MessageStatus) :
    (applyUpdates store i now ups).map Message.id = store.map Message.id := by
  induction ups generalizing store with
  | nil => rfl
  | cons st rest ih =>
    rw [applyUpdates, ih]
    exact map_id_of_id_preserving _ (fun m => by by_cases h : m.id = i <;> simp [UpdateStatus, h]) store

lemma dispatchBatch_map_id (input : CycleInput) (batch store : List Message) :
    (dispatchBatch input store batch).map Message.id = store.map Message.id := by
  induction batch generalizing store with
  | nil => rfl
  | cons a rest ih =>
    simp only [dispatchBatch, List.foldl_cons]
    rw [show ∀ st, List.foldl
        (fun st m => applyUpdates st m.id input.now
          (sendMessage input.maxAttempts input.cacheOk
            (input.responses m.id)).statusUpdates) st rest = dispatchBatch input st rest
      from fun _ => rfl]
    rw [ih, applyUpdates_map_id]

lemma FetchAndLockMessages_snd (store : List Message) (locked : List Nat)
    (limit : Nat) :
    (FetchAndLockMessages store locked limit).2
      = store.map fun m =>
          if m.id ∈ (FetchAndLockMessages store locked limit).1.map Message.id
          then { m with status := MessageStatus.processing } else m := rfl

lemma processBatch_map_id (input : CycleInput) (store : List Message) :
    (processBatch input store).map Message.id = store.map Message.id := by
  show (dispatchBatch input (FetchAndLockMessages store input.locked input.limit).2
      (FetchAndLockMessages store input.locked input.limit).1).map Message.id
    = store.map Message.id
  rw [dispatchBatch_map_id, FetchAndLockMessages_snd]
  exact map_id_of_id_preserving _ (fun m => by split <;> rfl) store

lemma statusOf_isSome_iff (store : List Message) (j : Nat) :
    (statusOf store j).isSome ↔ j ∈ store.map Message.id := by
  induction store with
  | nil => simp [statusOf]
  | cons a l ih =>
    by_cases ha : a.id = j
    · simp [statusOf, List.find?_cons, ha]
    · simp only [List.map_cons, List.mem_cons]
      rw [statusOf, List.find?_cons_of_neg _ (by simpa using ha)]
      rw [statusOf] at ih
      rw [ih]
      simp [Ne.symm ha]

lemma statusOf_map_general (f : Message → Message)
    (hf : ∀ m, (f m).id = m.id) (store : List Message) (j : Nat) :
    statusOf (store.map f) j
      = (store.find? fun m => m.id == j).map fun m => (f m).status := by
  induction store with
  | nil => rfl
  | cons a l ih =>
    unfold statusOf at ih ⊢
    rw [List.map_cons]
    by_cases ha : a.id = j
    · rw [List.find?_cons_of_pos _ (by simpa [hf] using ha),
        List.find?_cons_of_pos _ (by simpa using ha)]
      rfl
    · rw [List.find?_cons_of_neg _ (by simpa [hf] using ha),
        List.find?_cons_of_neg _ (by simpa using ha)]
      exact ih

lemma statusOf_eq_of_mem_nodup (store : List Message)
    (hnd : (store.map Message.id).Nodup) (m : Message) (hm : m ∈ store) :
    statusOf store m.id = some m.status := by
  induction store with
  | nil => cases hm
  | cons a l ih =>
    rcases List.mem_cons.mp hm with rfl | hm'
    · simp [statusOf, List.find?_cons]
    · rw [List.map_cons] at hnd
      have hparts := List.nodup_cons.mp hnd
      have hane : ¬ a.id = m.id := fun h =>
        hparts.1 (h ▸ List.mem_map_of_mem Message.id hm')
      simpa [statusOf, List.find?_cons, hane] using ih hparts.2 hm'

lemma statusOf_claim_unselected (store : List Message) (ids : List Nat)
    (j : Nat) (hj : j ∉ ids) :
    statusOf
      (store.map fun m =>
        if m.id ∈ ids then { m with status := MessageStatus.processing } else m) j
      = statusOf store j := by
  rw [statusOf_map_general _ (fun m => by split <;> rfl)]
  unfold statusOf
  cases hfind : store.find? fun m => m.id == j with
  | none => rfl
  | some r =>
    have hr : r.id = j := by simpa using List.find?_some hfind
    have hnot : r.id ∉ ids := hr ▸ hj
    simp [hnot]

lemma statusOf_setRow_ne (store : List Message) (i j : Nat)
    (st : MessageStatus) (now : Nat) (hne : j ≠ i) :
    statusOf (store.map fun m => if m.id = i then UpdateStatus m st now else m) j
      = statusOf store j := by
  rw [statusOf_map_general _ (fun m => by by_cases h : m.id = i <;> simp [UpdateStatus, h])]
  unfold statusOf
  cases hfind : store.find? fun m => m.id == j with
  | none => rfl
  | some r =>
    have hr : r.id = j := by simpa using List.find?_some hfind
    have hnot : ¬ r.id = i := fun h => hne (hr.symm.trans h)
    simp [hnot]

lemma statusOf_setRow_eq (store : List Message) (i : Nat)
    (st : MessageStatus) (now : Nat) :
    statusOf (store.map fun m => if m.id = i then UpdateStatus m st now else m) i
      = (statusOf store i).map fun _ => st := by
  rw [statusOf_map_general _ (fun m => by by_cases h : m.id = i <;> simp [UpdateStatus, h])]
  unfold statusOf
  cases hfind : store.find? fun m => m.id == i with
  | none => rfl
  | some r =>
    have hr : r.id = i := by simpa using List.find?_some hfind
    simp [hr, UpdateStatus]

lemma statusOf_applyUpdates_ne (store : List Message) (i j now : Nat)
    (ups : List MessageStatus) (hne : j ≠ i) :
    statusOf (applyUpdates store i now ups) j = statusOf store j := by
  induction ups generalizing store with
  | nil => rfl
  | cons st rest ih =>
    rw [applyUpdates, ih, statusOf_setRow_ne store i j st now hne]

lemma statusOf_applyUpdates_le_one (store : List Message) (i now : Nat)
    (ups : List MessageStatus) (hlen : ups.length ≤ 1) :
    statusOf (applyUpdates store i now ups) i = statusOf store i
    ∨ ∃ u ∈ ups, statusOf (applyUpdates store i now ups) i
        = (statusOf store i).map fun _ => u := by
  rcases ups with _ | ⟨u, _ | ⟨v, rest⟩⟩
  · exact Or.inl rfl
  · refine Or.inr ⟨u, by simp, ?_⟩
    rw [applyUpdates, applyUpdates]
    exact statusOf_setRow_eq store i u now
  · simp at hlen

lemma sendMessage_updates_le_one (maxAttempts : Nat) (cacheOk : Bool)
    (results : List AttemptResult) :
    (sendMessage maxAttempts cacheOk results).statusUpdates.length ≤ 1 := by
  have hloop := retryLoop_updates_length cacheOk maxAttempts results
  rcases hok : (retryLoop cacheOk maxAttempts results).2 with _ | _
  · simp [sendMessage, hok, hloop.1 hok]
  · simp only [sendMessage, hok, if_pos]
    exact hloop.2.1

lemma classifyAttempt_updates_terminal (cacheOk : Bool) (r : AttemptResult) :
    ∀ u ∈ (classifyAttempt cacheOk r).2.1,
      u = MessageStatus.success ∨ u = MessageStatus.failed := by
  cases r with
  | transportError => simp [classifyAttempt]
  | httpResponse code body =>
    by_cases h1 : code = 202
    · cases body with
      | none => simp [classifyAttempt, h1]
      | some resp =>
        by_cases h2 : resp.messageId = "" <;> simp [classifyAttempt, h1, h2]
    · by_cases h3 : 500 ≤ code
      · simp [classifyAttempt, h1, h3]
      · by_cases h4 : 400 ≤ code <;> simp [classifyAttempt, h1, h3, h4]

lemma retryLoop_updates_terminal (cacheOk : Bool) (fuel : Nat)
    (results : List AttemptResult) :
    ∀ u ∈ (retryLoop cacheOk fuel results).1.statusUpdates,
      u = MessageStatus.success ∨ u = MessageStatus.failed := by
  induction fuel generalizing results with
  | zero => simp [retryLoop]
  | succ n ih =>
    intro u hu
    rcases hterm : (classifyAttempt cacheOk
        (results.headD AttemptResult.transportError)).1 with _ | _
    · simp only [retryLoop, hterm, Bool.false_eq_true, if_false, consTrace] at hu
      rcases List.mem_append.mp hu with h | h
      · exact classifyAttempt_updates_terminal cacheOk _ u h
      · exact ih results.tail u h
    · simp only [retryLoop, hterm, if_true] at hu
      exact classifyAttempt_updates_terminal cacheOk _ u hu

lemma sendMessage_updates_terminal (maxAttempts : Nat) (cacheOk : Bool)
    (results : List AttemptResult) :
    ∀ u ∈ (sendMessage maxAttempts cacheOk results).statusUpdates,
      u = MessageStatus.success ∨ u = MessageStatus.failed := by
  intro u hu
  rcases hok : (retryLoop cacheOk maxAttempts results).2 with _ | _
  · simp only [sendMessage, hok, Bool.false_eq_true, if_false] at hu
    rcases List.mem_append.mp hu with h | h
    · exact retryLoop_updates_terminal cacheOk maxAttempts results u h
    · exact Or.inr (by simpa using h)
  · simp only [sendMessage, hok, if_pos] at hu
    exact retryLoop_updates_terminal cacheOk maxAttempts results u hu

lemma statusOf_dispatchBatch_notin (input : CycleInput) (batch : List Message)
    (store : List Message) (j : Nat) (hj : ∀ m ∈ batch, m.id ≠ j) :
    statusOf (dispatchBatch input store batch) j = statusOf store j := by
  induction batch generalizing store with
  | nil => rfl
  | cons a rest ih =>
    have ha : a.id ≠ j := hj a (by simp)
    have hrest : ∀ m ∈ rest, m.id ≠ j := fun m hm => hj m (by simp [hm])
    show statusOf (dispatchBatch input
      (applyUpdates store a.id input.now
        (sendMessage input.maxAttempts input.cacheOk
          (input.responses a.id)).statusUpdates) rest) j = statusOf store j
    rw [ih _ hrest,
      statusOf_applyUpdates_ne _ _ _ _ _ (fun h => ha h.symm)]

lemma statusOf_dispatchBatch_mem (input : CycleInput) (batch : List Message)
    (store : List Message) (j : Nat)
    (hnd : (batch.map Message.id).Nodup)
    (m : Message) (hm : m ∈ batch) (hmj : m.id = j) :
    statusOf (dispatchBatch input store batch) j = statusOf store j
    ∨ ∃ u ∈ (sendMessage input.maxAttempts input.cacheOk
          (input.responses j)).statusUpdates,
        statusOf (dispatchBatch input store batch) j
          = (statusOf store j).map fun _ => u := by
  subst hmj
  induction batch generalizing store with
  | nil => cases hm
  | cons a rest ih =>
    rw [List.map_cons] at hnd
    have hparts := List.nodup_cons.mp hnd
    rcases List.mem_cons.mp hm with rfl | hm'
    · have hrest : ∀ x ∈ rest, x.id ≠ m.id := by
        intro x hx hxj
        exact hparts.1 (hxj ▸ List.mem_map_of_mem Message.id hx)
      have hout : statusOf (dispatchBatch input
          (applyUpdates store m.id input.now
            (sendMessage input.maxAttempts input.cacheOk
              (input.responses m.id)).statusUpdates) rest) m.id
          = statusOf (applyUpdates store m.id input.now
              (sendMessage input.maxAttempts input.cacheOk
                (input.responses m.id)).statusUpdates) m.id :=
        statusOf_dispatchBatch_notin input rest _ m.id hrest
      have happly := statusOf_applyUpdates_le_one store m.id input.now
        (sendMessage input.maxAttempts input.cacheOk
          (input.responses m.id)).statusUpdates
        (sendMessage_updates_le_one input.maxAttempts input.cacheOk
          (input.responses m.id))
      rcases happly with h | ⟨u, hu, h⟩
      · exact Or.inl (hout.trans h)
      · exact Or.inr ⟨u, hu, hout.trans h⟩
    · have ha : a.id ≠ m.id := by
        intro haj
        exact hparts.1 (haj ▸ List.mem_map_of_mem Message.id hm')
      have hmid := ih
        (applyUpdates store a.id input.now
          (sendMessage input.maxAttempts input.cacheOk
            (input.responses a.id)).statusUpdates)
        hparts.2 hm'
      have hkeep : statusOf (applyUpdates store a.id input.now
          (sendMessage input.maxAttempts input.cacheOk
            (input.responses a.id)).statusUpdates) m.id = statusOf store m.id :=
        statusOf_applyUpdates_ne _ _ _ _ _ (fun h => ha h.symm)
      rcases hmid with h | ⟨u, hu, h⟩
      · exact Or.inl (h.trans hkeep)
      · exact Or.inr ⟨u, hu, h.trans (by rw [hkeep])⟩

lemma statusPath_trans {a b c : MessageStatus} (h1 : StatusPath a b)
    (h2 : StatusPath b c) : StatusPath a c := by
  revert h2
  induction h1 with
  | refl _ => exact fun h2 => h2
  | step hs _ ih => exact fun h2 => StatusPath.step hs (ih h2)

lemma statusPath_terminal {a b : MessageStatus} (h : StatusPath a b)
    (ha : a = MessageStatus.success ∨ a = MessageStatus.failed) : b = a := by
  cases h with
  | refl => rfl
  | step hs _ =>
    exfalso
    rename_i mid _
    rcases ha with rfl | rfl <;> cases mid <;> simp [legalStep] at hs

lemma processBatch_status_path (input : CycleInput) (store : List Message)
    (hnd : (store.map Message.id).Nodup) (j : Nat) (s0 s1 : MessageStatus)
    (h0 : statusOf store j = some s0)
    (h1 : statusOf (processBatch input store) j = some s1) :
    StatusPath s0 s1 := by
  have h1' : statusOf (dispatchBatch input
      (FetchAndLockMessages store input.locked input.limit).2
      (FetchAndLockMessages store input.locked input.limit).1) j = some s1 := h1
  by_cases hjin : j ∈ (FetchAndLockMessages store input.locked input.limit).1.map
      Message.id
  · obtain ⟨m, hm, hmj⟩ := List.mem_map.mp hjin
    have hmem : m ∈ store :=
      (claimed_batch_sublist store input.locked input.limit).mem hm
    have hst : statusOf store m.id = some m.status :=
      statusOf_eq_of_mem_nodup store hnd m hmem
    have hpend : m.status = MessageStatus.pending :=
      (claimed_batch_mem store input.locked input.limit m hm).1
    have hs0 : s0 = MessageStatus.pending := by
      rw [hmj, h0] at hst
      exact (Option.some.inj hst).trans hpend
    have hproc1 : statusOf (FetchAndLockMessages store input.locked input.limit).2 j
        = some MessageStatus.processing := by
      rw [FetchAndLockMessages_snd]
      exact statusOf_map_processing store _ j hjin ⟨m, hmem, hmj⟩
    have hbnd : ((FetchAndLockMessages store input.locked input.limit).1.map
        Message.id).Nodup :=
      hnd.sublist
        ((claimed_batch_sublist store input.locked input.limit).map Message.id)
    have hdisp := statusOf_dispatchBatch_mem input
      (FetchAndLockMessages store input.locked input.limit).1
      (FetchAndLockMessages store input.locked input.limit).2 j hbnd m hm hmj
    subst hs0
    rcases hdisp with heq | ⟨u, hu, heq⟩
    · rw [heq, hproc1] at h1'
      obtain rfl := Option.some.inj h1'
      exact StatusPath.step (show legalStep MessageStatus.pending
        MessageStatus.processing = true from rfl) (StatusPath.refl _)
    · rw [heq, hproc1] at h1'
      have hus : u = s1 := Option.some.inj h1'
      rcases sendMessage_updates_terminal input.maxAttempts input.cacheOk
          (input.responses j) u hu with h' | h'
      · rw [← hus, h']
        exact StatusPath.step (show legalStep MessageStatus.pending
            MessageStatus.processing = true from rfl)
          (StatusPath.step (show legalStep MessageStatus.processing
            MessageStatus.success = true from rfl) (StatusPath.refl _))
      · rw [← hus, h']
        exact StatusPath.step (show legalStep MessageStatus.pending
            MessageStatus.processing = true from rfl)
          (StatusPath.step (show legalStep MessageStatus.processing
            MessageStatus.failed = true from rfl) (StatusPath.refl _))
  · have hkeep1 : statusOf (FetchAndLockMessages store input.locked input.limit).2 j
        = statusOf store j := by
      rw [FetchAndLockMessages_snd]
      exact statusOf_claim_unselected store _ j hjin
    have hnotin : ∀ m ∈ (FetchAndLockMessages store input.locked input.limit).1,
        m.id ≠ j := fun m hm hmj =>
      hjin (hmj ▸ List.mem_map_of_mem Message.id hm)
    have hkeep2 := statusOf_dispatchBatch_notin input
      (FetchAndLockMessages store input.locked input.limit).1
      (FetchAndLockMessages store input.locked input.limit).2 j hnotin
    rw [hkeep2, hkeep1, h0] at h1'
    obtain rfl := Option.some.inj h1'
    exact StatusPath.refl _

/-- C2: across any sequence of scheduler cycles, every message's status
evolves only along the legal path Pending to Processing to Success or
Failed; in particular a message whose status is already Success or Failed
is never changed again by any core operation. -/
theorem core_status_transitions_legal (inputs : List CycleInput)
    (store : List Message) (hnd : (store.map Message.id).Nodup)
    (j : Nat) (s0 s1 : MessageStatus)
    (h0 : statusOf store j = some s0)
    (h1 : statusOf (runCycles inputs store) j = some s1) :
    StatusPath s0 s1
    ∧ ((s0 = MessageStatus.success ∨ s0 = MessageStatus.failed) → s1 = s0) := by
  have hpath : StatusPath s0 s1 := by
    induction inputs generalizing store s0 with
    | nil =>
      obtain rfl := Option.some.inj (h0.symm.trans h1)
      exact StatusPath.refl _
    | cons inp rest ih =>
      have h1' : statusOf (runCycles rest (processBatch inp store)) j = some s1 := h1
      have hids := processBatch_map_id inp store
      have hmem : j ∈ store.map Message.id := by
        rw [← statusOf_isSome_iff, h0]
        rfl
      have hmem1 : j ∈ (processBatch inp store).map Message.id := by
        rw [hids]; exact hmem
      obtain ⟨smid, hmid⟩ :=
        Option.isSome_iff_exists.mp ((statusOf_isSome_iff _ j).mpr hmem1)
      have hnd1 : ((processBatch inp store).map Message.id).Nodup := by
        rw [hids]; exact hnd
      exact statusPath_trans
        (processBatch_status_path inp store hnd j s0 smid h0 hmid)
        (ih (processBatch inp store) hnd1 smid hmid h1')
  exact ⟨hpath, fun ht => statusPath_terminal hpath ht⟩

/-- A concrete cycle whose only simulated response is an immediate 202. -/
def sampleCycle : CycleInput :=
  { locked := [], limit := 8,
    responses := fun _ => [AttemptResult.httpResponse 202 none],
    maxAttempts := 3, cacheOk := true, now := 7 }

/-- Witness for the status-machine theorem: one cycle over a store with a
pending row (delivered, ending Success) and an already-delivered row. -/
theorem core_status_transitions_legal_witness :
    (([sampleMsg1, sampleMsg3].map Message.id).Nodup
      ∧ statusOf [sampleMsg1, sampleMsg3] 1 = some MessageStatus.pending
      ∧ statusOf (runCycles [sampleCycle] [sampleMsg1, sampleMsg3]) 1
          = some MessageStatus.success)
    ∧ (StatusPath MessageStatus.pending MessageStatus.success
      ∧ ((MessageStatus.pending = MessageStatus.success
            ∨ MessageStatus.pending = MessageStatus.failed)
          → MessageStatus.success = MessageStatus.pending)) :=
  ⟨⟨by decide, by decide, by decide⟩,
    core_status_transitions_legal [sampleCycle] [sampleMsg1, sampleMsg3]
      (by decide) 1 MessageStatus.pending MessageStatus.success
      (by decide) (by decide)⟩

end AutoMessenger
